import Mathlib

set_option maxHeartbeats 1000000

/-!
Shallow embedding of the contact-graph application (types.ts, the Gemini
service module, App.tsx handlers, and the NetworkGraph edge construction).

The external LLM oracle is modelled as a value of type `OracleResult`: the
call either throws (the promise rejects) or delivers a response whose
JSON-parse outcome is either `none` (unparseable text) or `some` parsed
object.  A parsed JSON object is a `JSContact`: every `Contact` field may be
absent (`none` models a missing/undefined property).  Functions that may
throw return `Except String`.
-/

/-- RelatedPerson from types.ts. -/
structure RelatedPerson where
  name : String
  relationship : String
deriving DecidableEq

/-- Contact from types.ts; `email?`, `phone?`, `location?`, `avatarUrl?` are
optional properties, modelled as `Option`. -/
structure Contact where
  id : String
  name : String
  title : String
  company : String
  email : Option String := none
  phone : Option String := none
  location : Option String := none
  tags : List String
  summary : String
  notes : String
  relatedPeople : List RelatedPerson
  avatarUrl : Option String := none
deriving DecidableEq

/-- A JavaScript object carrying any subset of the `Contact` fields
(`none` = property absent).  This is the shape of a parsed oracle JSON
response and of the object produced by spreading one. -/
structure JSContact where
  id : Option String := none
  name : Option String := none
  title : Option String := none
  company : Option String := none
  email : Option String := none
  phone : Option String := none
  location : Option String := none
  tags : Option (List String) := none
  summary : Option String := none
  notes : Option String := none
  relatedPeople : Option (List RelatedPerson) := none
  avatarUrl : Option String := none
deriving DecidableEq

/-- View a `Contact` as the JavaScript object it is at runtime: every
declared field present. -/
def Contact.toJS (c : Contact) : JSContact :=
  { id := some c.id, name := some c.name, title := some c.title,
    company := some c.company, email := c.email, phone := c.phone,
    location := c.location, tags := some c.tags, summary := some c.summary,
    notes := some c.notes, relatedPeople := some c.relatedPeople,
    avatarUrl := c.avatarUrl }

/-- Outcome of one oracle invocation, as observed by the calling code:
either the awaited call throws with some message, or it yields response
text whose JSON parse result is `none` (parse failure) or `some` object. -/
inductive OracleResult where
  | throwErr (msg : String)
  | response (parsed : Option JSContact)

deriving instance DecidableEq for Except

-- --- 4. Intelligent Merge Service (geminiService, mergeContactsSmartly) ---

/-- mergeContactsSmartly from the Gemini service module.  Empty input throws;
a single profile is returned as-is without an oracle call; otherwise the
oracle is invoked (a rejection propagates: only the JSON.parse is inside the
try block).  On parse success the returned object is the parsed JSON with
`id` overridden by the first profile's id and `notes` the join of all input
notes with a blank line; on parse failure the first profile is returned. -/
def mergeContactsSmartly (contacts : List Contact) (oracle : OracleResult) :
    Except String JSContact :=
  match contacts with
  | [] => .error "No contacts to merge"
  | [c] => .ok c.toJS
  | c :: _ :: _ =>
    match oracle with
    | .throwErr msg => .error msg
    | .response none => .ok c.toJS
    | .response (some m) =>
        .ok { m with id := some c.id,
                     notes := some (String.intercalate "\n\n"
                                     (contacts.map Contact.notes)) }

-- --- 3. Enrichment Service (geminiService, enrichContactProfile) ---

/-- The JavaScript spread `{...currentContact, ...updates}`: fields present
in the parsed update object overwrite the contact's fields, absent fields
leave them untouched. -/
def applyPatch (c : Contact) (u : JSContact) : Contact :=
  { id := u.id.getD c.id,
    name := u.name.getD c.name,
    title := u.title.getD c.title,
    company := u.company.getD c.company,
    email := u.email.or c.email,
    phone := u.phone.or c.phone,
    location := u.location.or c.location,
    tags := u.tags.getD c.tags,
    summary := u.summary.getD c.summary,
    notes := u.notes.getD c.notes,
    relatedPeople := u.relatedPeople.getD c.relatedPeople,
    avatarUrl := u.avatarUrl.or c.avatarUrl }

/-- enrichContactProfile from the Gemini service module: an oracle rejection
propagates; unparseable output falls back to returning the original contact
(the catch block returns `currentContact`); parseable output is spread over
the current contact. -/
def enrichContactProfile (c : Contact) (oracle : OracleResult) :
    Except String Contact :=
  match oracle with
  | .throwErr msg => .error msg
  | .response none => .ok c
  | .response (some u) => .ok (applyPatch c u)

-- --- handleEnrich discovery step (App.tsx) ---

/-- Case-insensitive substring test, modelling JavaScript
toLowerCase().includes(pat) for a lowercase pattern: splitting on the
pattern yields more than one piece exactly when the pattern occurs. -/
def containsLower (s pat : String) : Bool :=
  decide (1 < (s.toLower.splitOn pat).length)

/-- The stub contact pushed for a newly discovered related person or
organization (App.tsx handleEnrich step 2).  The freshly generated
Date.now/random id is modelled by an injected generator applied to the
number of stubs already created in this call. -/
def mkStub (enrichedName : String) (genId : Nat → String) (k : Nat)
    (rel : RelatedPerson) : Contact :=
  let isOrg := containsLower rel.relationship "organization" ||
               containsLower rel.relationship "company"
  { id := genId k,
    name := rel.name,
    title := if isOrg then "组织机构" else rel.relationship,
    company := if isOrg then rel.name else "",
    location := some "",
    tags := ["AI发现", if isOrg then "Organization" else "Person"],
    summary := "系统根据 " ++ enrichedName ++ " 的资料自动发现的人脉关联：" ++
               rel.relationship,
    notes := "",
    relatedPeople := [⟨enrichedName, "Origin Connection"⟩],
    avatarUrl := some "" }

/-- The forEach loop over the enriched contact's relatedPeople: a stub is
created when the referenced name is not in the (growing) name set, and the
name is then added to the set. -/
def discoverLoop (enrichedName : String) (genId : Nat → String) :
    List RelatedPerson → List String → Nat → List Contact
  | [], _, _ => []
  | rel :: rest, names, k =>
    if rel.name ∈ names then discoverLoop enrichedName genId rest names k
    else mkStub enrichedName genId k rel ::
         discoverLoop enrichedName genId rest (rel.name :: names) (k + 1)

/-- Discovery step of handleEnrich: the name set is seeded with all store
names plus the enriched contact's own name, then the loop runs over the
enriched contact's relatedPeople. -/
def handleEnrichDiscovery (contacts : List Contact) (enriched : Contact)
    (genId : Nat → String) : List Contact :=
  discoverLoop enriched.name genId enriched.relatedPeople
    (enriched.name :: contacts.map Contact.name) 0

/-- handleEnrich (App.tsx), store-effect part: any error aborts with the
store untouched (the surrounding try/catch alerts and changes nothing);
otherwise the enriched contact replaces the entry with its id and the
discovered stubs are appended. -/
def handleEnrich (contacts : List Contact) (sel : Contact)
    (oracle : OracleResult) (genId : Nat → String) : List Contact :=
  match enrichContactProfile sel oracle with
  | .error _ => contacts
  | .ok enriched =>
      (contacts.map (fun c => if c.id = enriched.id then enriched else c)) ++
      handleEnrichDiscovery contacts enriched genId

-- --- handleAddRelation (App.tsx) ---

/-- JavaScript String.prototype.trim modelled on the character list:
leading and trailing whitespace characters are removed. -/
def jsTrim (s : String) : String :=
  ⟨((s.data.dropWhile Char.isWhitespace).reverse.dropWhile
      Char.isWhitespace).reverse⟩

/-- Per-contact update performed by the setContacts map inside
handleAddRelation: the selected side gains a reference to the target (unless
one with that name exists), the target side gains a reference to the
selected contact, everything else is returned unchanged. -/
def addRelationUpdate (sel target : Contact) (relTargetId relType : String)
    (c : Contact) : Contact :=
  if c.id = sel.id then
    if c.relatedPeople.any (fun p => p.name == target.name) then c
    else { c with relatedPeople := c.relatedPeople ++ [⟨target.name, relType⟩] }
  else if c.id = relTargetId then
    if c.relatedPeople.any (fun p => p.name == sel.name) then c
    else { c with relatedPeople := c.relatedPeople ++ [⟨sel.name, relType⟩] }
  else c

/-- handleAddRelation (App.tsx): no-ops unless a selected contact is
resolved, the target id and the trimmed relationship label are non-empty,
and the target id resolves to a contact; then both sides are linked via the
per-contact update map. -/
def handleAddRelation (contacts : List Contact)
    (selectedContactId : Option String) (relTargetId relType : String) :
    List Contact :=
  match selectedContactId.bind
      (fun i => contacts.find? (fun c => c.id == i)) with
  | none => contacts
  | some sel =>
    if relTargetId = "" ∨ jsTrim relType = "" then contacts
    else
      match contacts.find? (fun c => c.id == relTargetId) with
      | none => contacts
      | some target =>
          contacts.map (addRelationUpdate sel target relTargetId relType)

/-- Boolean form of the no-duplicate-related-names invariant of one
contact. -/
def nodupNamesB (c : Contact) : Bool :=
  decide (c.relatedPeople.map RelatedPerson.name).Nodup

-- --- NetworkGraph link construction (deriveEdges) ---

/-- One derived graph link: source and target ids, weight, and the
relationship label (the `value` and `type` fields of the pushed object). -/
structure Edge where
  source : String
  target : String
  value : Nat
  type : String
deriving DecidableEq

/-- JavaScript string comparison a < b: lexicographic on the character
sequence (JS compares UTF-16 code units; on the basic multilingual plane
this coincides with code-point order used here). -/
def charListLt : List Char → List Char → Bool
  | [], [] => false
  | [], _ :: _ => true
  | _ :: _, [] => false
  | a :: as, b :: bs =>
    if a < b then true else if b < a then false else charListLt as bs

/-- String order used by the inferred-edge dedup check source.id <
target.id. -/
def jsStrLt (a b : String) : Bool :=
  charListLt a.data b.data

/-- The Map built by new Map(contacts.map(c => [c.name, c.id])): for a
duplicated name the last insertion wins, so lookup finds the last contact
with that name. -/
def contactNameToId (contacts : List Contact) (name : String) :
    Option String :=
  (contacts.reverse.find? (fun c => c.name == name)).map Contact.id

/-- Explicit links pushed for one source contact: each relatedPeople entry
whose name resolves (to a truthy id) yields a weight-2 edge labelled with
the stored relationship. -/
def explicitEdgesFrom (all : List Contact) (s : Contact) : List Edge :=
  s.relatedPeople.filterMap (fun rel =>
    (contactNameToId all rel.name).bind (fun tid =>
      if tid = "" then none
      else some { source := s.id, target := tid, value := 2,
                  type := rel.relationship }))

/-- Implicit company links pushed for one source contact: a weight-1
"Colleague" edge to every distinct contact with the same (truthy) company,
emitted only when source.id < target.id. -/
def colleagueEdgesFrom (all : List Contact) (s : Contact) : List Edge :=
  if s.company = "" then []
  else
    (all.filter (fun t =>
        decide (s.id ≠ t.id) && decide (s.company = t.company) &&
        jsStrLt s.id t.id)).map
      (fun t => { source := s.id, target := t.id, value := 1,
                  type := "Colleague" })

/-- The full link construction of NetworkGraph: for each contact, its
explicit edges then its implicit colleague edges. -/
def deriveEdges (contacts : List Contact) : List Edge :=
  contacts.flatMap (fun s =>
    explicitEdgesFrom contacts s ++ colleagueEdgesFrom contacts s)

/-- Predicate picking the inferred (weight-1) edges joining the unordered
pair of ids x, y in either direction. -/
def isInferredBetween (x y : String) (e : Edge) : Bool :=
  (e.value == 1) &&
  ((e.source == x && e.target == y) || (e.source == y && e.target == x))

-- --- 2. Search Grounding Service (searchPersonInfo source handling) ---

/-- SearchResult from types.ts. -/
structure SearchResult where
  title : String
  snippet : String
  url : Option String := none
  source : String
deriving DecidableEq

/-- The web part of a grounding chunk (uri and title may each be absent). -/
structure WebRef where
  uri : Option String := none
  title : Option String := none
deriving DecidableEq

/-- One grounding chunk of the oracle response metadata. -/
structure GroundingChunk where
  web : Option WebRef := none
deriving DecidableEq

/-- JavaScript truthiness of an optional string: present and non-empty. -/
def truthyStr : Option String → Bool
  | none => false
  | some s => !(s == "")

/-- The source list built from the grounding chunks before deduplication:
chunks with a truthy uri are mapped to SearchResult entries (title falls
back to "Web Source" when falsy); new URL(uri).hostname is modelled by an
injected hostname function. -/
def rawSources (chunks : List GroundingChunk)
    (hostname : String → String) : List SearchResult :=
  (chunks.filter (fun c => truthyStr (c.web.bind WebRef.uri))).map
    (fun c =>
      { title := match c.web.bind WebRef.title with
                 | some t => if t = "" then "Web Source" else t
                 | none => "Web Source",
        snippet := "Click to visit source",
        url := c.web.bind WebRef.uri,
        source := hostname ((c.web.bind WebRef.uri).getD "") })

/-- Insertion into a JavaScript Map viewed as an association list in key
insertion order: an existing key keeps its position but its value is
overwritten; a new key is appended. -/
def jsMapInsert (m : List (Option String × SearchResult)) (k : Option String)
    (v : SearchResult) : List (Option String × SearchResult) :=
  if m.any (fun p => decide (p.1 = k)) then
    m.map (fun p => if p.1 = k then (k, v) else p)
  else m ++ [(k, v)]

/-- Array.from(new Map(sources.map(item => [item.url, item])).values()). -/
def dedupeByUrl (sources : List SearchResult) : List SearchResult :=
  (sources.foldl (fun m item => jsMapInsert m item.url item) []).map
    Prod.snd

/-- The deduplicated source list searchPersonInfo returns. -/
def searchPersonInfoSources (chunks : List GroundingChunk)
    (hostname : String → String) : List SearchResult :=
  dedupeByUrl (rawSources chunks hostname)

/-- First-occurrence key order: the key sequence a JavaScript Map ends up
with. -/
def firstOccDedup (l : List (Option String)) : List (Option String) :=
  l.foldl (fun acc u => if u ∈ acc then acc else acc ++ [u]) []

/-- Modelled from the spec: deduplication of source lists by URL that keeps
the first occurrence of each URL.  Used only for comparison with the
code's deduplication. -/
def specDedupKeepFirst (sources : List SearchResult) : List SearchResult :=
  sources.foldl (fun acc s =>
    if acc.any (fun t => decide (t.url = s.url)) then acc else acc ++ [s]) []

-- --- Concrete sample data (INITIAL_CONTACTS of App.tsx and oracle
-- responses used in witnesses and counterexamples) ---

/-- INITIAL_CONTACTS entry 1. -/
def cLi : Contact :=
  { id := "1", name := "李明", title := "高级产品经理", company := "字节跳动",
    location := some "北京", tags := ["Product", "AI", "Mobile"],
    summary := "资深产品专家，专注于移动端应用与AI落地。",
    notes := "在2023年科技峰会遇到。",
    relatedPeople := [⟨"王强", "Colleague"⟩] }

/-- INITIAL_CONTACTS entry 2. -/
def cWang : Contact :=
  { id := "2", name := "王强", title := "技术总监", company := "字节跳动",
    location := some "北京", tags := ["Engineering", "Cloud", "Backend"],
    summary := "负责基础架构团队，拥有十年后端开发经验。", notes := "",
    relatedPeople := [⟨"李明", "Colleague"⟩] }

/-- INITIAL_CONTACTS entry 3. -/
def cZhang : Contact :=
  { id := "3", name := "张伟", title := "投资人", company := "红杉资本",
    location := some "上海", tags := ["VC", "Finance", "Tech"],
    summary := "关注硬科技领域的早期投资。", notes := "",
    relatedPeople := [] }

/-- Spec scenario profile A with tags x. -/
def cTagA : Contact :=
  { id := "a", name := "A", title := "", company := "", tags := ["x"],
    summary := "", notes := "", relatedPeople := [] }

/-- Spec scenario profile B with tags x, y. -/
def cTagB : Contact :=
  { id := "b", name := "B", title := "", company := "", tags := ["x", "y"],
    summary := "", notes := "", relatedPeople := [] }

/-- An oracle merge response whose tags field is the list z. -/
def mTagsZ : JSContact := { tags := some ["z"] }

/-- An oracle merge response whose relatedPeople field repeats one name. -/
def mDupNames : JSContact :=
  { relatedPeople := some [⟨"N", "x"⟩, ⟨"N", "y"⟩] }

/-- A stored contact holding one dangling related-person reference. -/
def cGhosted : Contact :=
  { id := "g1", name := "G", title := "", company := "", tags := [],
    summary := "", notes := "", relatedPeople := [⟨"Ghost", "Friend"⟩] }

/-- A deterministic stand-in for the auto-generated stub ids. -/
def autoId : Nat → String := fun k => "auto-" ++ toString k

/-- Spec scenario entity Li at Acme. -/
def cAcmeLi : Contact :=
  { id := "1", name := "Li", title := "", company := "Acme", tags := [],
    summary := "", notes := "", relatedPeople := [] }

/-- Spec scenario entity Wang at Acme. -/
def cAcmeWang : Contact :=
  { id := "2", name := "Wang", title := "", company := "Acme", tags := [],
    summary := "", notes := "", relatedPeople := [] }

/-- Two grounding chunks sharing one uri with different titles. -/
def chunkT1 : GroundingChunk := { web := some { uri := some "http://u", title := some "T1" } }

/-- Second chunk with the same uri and another title. -/
def chunkT2 : GroundingChunk := { web := some { uri := some "http://u", title := some "T2" } }

/-- Hostname stand-in for new URL(...).hostname. -/
def hostFixed : String → String := fun _ => "u"

/-- An enriched contact whose patch mentions the same new name twice. -/
def cDupRels : Contact :=
  { id := "d1", name := "D", title := "", company := "", tags := [],
    summary := "", notes := "",
    relatedPeople := [⟨"新人", "Friend"⟩, ⟨"新人", "Colleague"⟩] }

-- ===================== Theorems =====================

-- Small reduction facts about the merge branches, used repeatedly.

theorem mergeContactsSmartly_throw (a b : Contact) (rest : List Contact)
    (msg : String) :
    mergeContactsSmartly (a :: b :: rest) (.throwErr msg) = .error msg := rfl

theorem mergeContactsSmartly_parsefail (a b : Contact) (rest : List Contact) :
    mergeContactsSmartly (a :: b :: rest) (.response none) = .ok a.toJS := rfl

theorem mergeContactsSmartly_parsed (a b : Contact) (rest : List Contact)
    (m : JSContact) :
    mergeContactsSmartly (a :: b :: rest) (.response (some m)) =
      .ok { m with id := some a.id,
                   notes := some (String.intercalate "\n\n"
                                   ((a :: b :: rest).map Contact.notes)) } := rfl

/-- C1 counterexample: on a 2-profile merge whose oracle call throws, the
code propagates the error instead of returning the first profile, so the
claimed fail-closed behaviour for a throwing call is false. -/
theorem mergeContactsSmartly_throw_propagates_cex :
    mergeContactsSmartly [cLi, cWang] (.throwErr "network error") =
      .error "network error" ∧
    mergeContactsSmartly [cLi, cWang] (.throwErr "network error") ≠
      .ok cLi.toJS := by
  constructor
  · rfl
  · decide

/-- C1 (amended): on a merge of at least 2 profiles, unparseable oracle
output fails closed, returning the first input profile unchanged (by
value); a throwing oracle call instead propagates the error to the caller
(no merged entity is produced in either case). -/
theorem mergeContactsSmartly_failure_modes (a b : Contact)
    (rest : List Contact) (msg : String) :
    mergeContactsSmartly (a :: b :: rest) (.response none) = .ok a.toJS ∧
    mergeContactsSmartly (a :: b :: rest) (.throwErr msg) = .error msg :=
  ⟨rfl, rfl⟩

/-- C3 counterexample: merging the spec's scenario profiles A (tags x) and
B (tags x, y) with an oracle that returns tags z yields tags z, not the
union of the input tags, so the claimed engine-guaranteed tag union is
false. -/
theorem merge_tags_not_union_cex :
    mergeContactsSmartly [cTagA, cTagB] (.response (some mTagsZ)) =
      .ok { tags := some ["z"], id := some "a", notes := some "\n\n" } ∧
    (some ["z"] : Option (List String)) ≠ some ["x", "y"] := by
  constructor
  · rfl
  · decide

/-- C3 (amended): on a merge of at least 2 profiles with parseable oracle
output, the merged result's tags are exactly the tags field of the
oracle's response; the engine performs no tag post-processing, so the set
union holds only if the oracle returns it. -/
theorem mergeContactsSmartly_tags_from_oracle (a b : Contact)
    (rest : List Contact) (m : JSContact) (r : JSContact)
    (h : mergeContactsSmartly (a :: b :: rest) (.response (some m)) = .ok r) :
    r.tags = m.tags := by
  rw [mergeContactsSmartly_parsed] at h
  injection h with h
  rw [← h]

/-- C3 amended-claim witness at the spec's scenario input. -/
theorem mergeContactsSmartly_tags_from_oracle_witness :
    ({ tags := some ["z"], id := some "a", notes := some "\n\n" } :
      JSContact).tags = mTagsZ.tags :=
  mergeContactsSmartly_tags_from_oracle cTagA cTagB [] mTagsZ _ rfl

/-- C5 counterexample: merging the first two initial contacts (the second
has empty notes) with any parseable oracle output produces notes ending in
a blank-line separator contributed by the empty entry, contradicting the
claim that empty notes values contribute nothing. -/
theorem merge_notes_empty_separator_cex :
    mergeContactsSmartly [cLi, cWang] (.response (some {})) =
      .ok { id := some "1", notes := some "在2023年科技峰会遇到。\n\n" } ∧
    ("在2023年科技峰会遇到。\n\n" : String) ≠ "在2023年科技峰会遇到。" := by
  constructor
  · rfl
  · decide

/-- C5 (amended): on a merge of at least 2 profiles with parseable oracle
output, the result's notes are the notes of all input profiles in input
order joined with a blank-line separator, with empty notes entries
included (so empty entries do produce leading, trailing or doubled
separators). -/
theorem mergeContactsSmartly_notes_join_all (a b : Contact)
    (rest : List Contact) (m : JSContact) (r : JSContact)
    (h : mergeContactsSmartly (a :: b :: rest) (.response (some m)) = .ok r) :
    r.notes = some (String.intercalate "\n\n"
                     ((a :: b :: rest).map Contact.notes)) := by
  rw [mergeContactsSmartly_parsed] at h
  injection h with h
  rw [← h]

/-- C5 amended-claim witness at the initial-contacts input. -/
theorem mergeContactsSmartly_notes_join_all_witness :
    ({ id := some "1", notes := some "在2023年科技峰会遇到。\n\n" } :
      JSContact).notes =
      some (String.intercalate "\n\n" ([cLi, cWang].map Contact.notes)) :=
  mergeContactsSmartly_notes_join_all cLi cWang [] {} _ rfl

/-- C6: on a merge of at least 2 profiles, whenever the operation returns
an entity (parse success or the fail-closed path), that entity's id is the
survivor id, i.e. the id of the first profile, overriding any id in the
oracle's response. -/
theorem mergeContactsSmartly_id_survivor (a b : Contact)
    (rest : List Contact) (oracle : OracleResult) (r : JSContact)
    (h : mergeContactsSmartly (a :: b :: rest) oracle = .ok r) :
    r.id = some a.id := by
  cases oracle with
  | throwErr msg =>
      rw [mergeContactsSmartly_throw] at h
      exact absurd h (by intro hc; exact Except.noConfusion hc)
  | response parsed =>
      cases parsed with
      | none =>
          rw [mergeContactsSmartly_parsefail] at h
          injection h with h
          rw [← h]
          rfl
      | some m =>
          rw [mergeContactsSmartly_parsed] at h
          injection h with h
          rw [← h]

/-- C6 witness: merging the two initial contacts with an oracle response
that contains a conflicting id still yields the first contact's id. -/
theorem mergeContactsSmartly_id_survivor_witness :
    ({ id := some "1",
       notes := some "在2023年科技峰会遇到。\n\n" } : JSContact).id =
      some "1" :=
  mergeContactsSmartly_id_survivor cLi cWang [] (.response (some { id := some "999" })) _ rfl

-- --- C2: enrichment parse-failure behaviour ---

/-- C2 counterexample: with a store holding one contact that has a dangling
related-person reference, a parse failure makes enrichContactProfile
return the original contact as a success (no ExtractionParseError reaches
the caller) and handleEnrich then mutates the store by creating a stub for
the dangling name. -/
theorem handleEnrich_parse_failure_mutates_cex :
    enrichContactProfile cGhosted (.response none) = .ok cGhosted ∧
    handleEnrich [cGhosted] cGhosted (.response none) autoId ≠ [cGhosted] := by
  constructor
  · rfl
  · decide

/-- C2 (amended): on oracle-output parse failure the enrichment does not
surface an error: it returns the target contact unchanged, and the
pipeline then proceeds, leaving every stored entity value-unchanged but
still appending stub entities discovered from the (unchanged) target's
dangling related-person names. -/
theorem handleEnrich_parse_failure_behavior (contacts : List Contact)
    (sel : Contact) (g : Nat → String) (hmem : sel ∈ contacts)
    (hnodup : (contacts.map Contact.id).Nodup) :
    enrichContactProfile sel (.response none) = .ok sel ∧
    handleEnrich contacts sel (.response none) g =
      contacts ++ handleEnrichDiscovery contacts sel g := by
  refine ⟨rfl, ?_⟩
  show (contacts.map (fun c => if c.id = sel.id then sel else c)) ++
      handleEnrichDiscovery contacts sel g = _
  have hmap : contacts.map (fun c => if c.id = sel.id then sel else c) =
      contacts.map id := by
    apply List.map_congr_left
    intro c hc
    by_cases h : c.id = sel.id
    · rw [if_pos h]
      exact (List.inj_on_of_nodup_map hnodup hc hmem h).symm
    · rw [if_neg h]
      rfl
  rw [hmap, List.map_id]

/-- C2 amended-claim witness at the counterexample input. -/
theorem handleEnrich_parse_failure_behavior_witness :
    enrichContactProfile cGhosted (.response none) = .ok cGhosted ∧
    handleEnrich [cGhosted] cGhosted (.response none) autoId =
      [cGhosted] ++ handleEnrichDiscovery [cGhosted] cGhosted autoId :=
  handleEnrich_parse_failure_behavior [cGhosted] cGhosted autoId
    (by decide) (by decide)

-- --- C4: duplicate related-person names ---

/-- C4 counterexample: a 2-profile merge whose oracle response repeats a
related-person name returns an entity carrying two relatedPeople entries
with the same name, so the claimed merge-side dedup invariant is false. -/
theorem merge_relatedPeople_dup_cex :
    mergeContactsSmartly [cTagA, cTagB] (.response (some mDupNames)) =
      .ok { relatedPeople := some [⟨"N", "x"⟩, ⟨"N", "y"⟩], id := some "a",
            notes := some "\n\n" } ∧
    ¬ (([⟨"N", "x"⟩, ⟨"N", "y"⟩] : List RelatedPerson).map
        RelatedPerson.name).Nodup := by
  constructor
  · rfl
  · decide

/-- Per-contact update of handleAddRelation preserves the
no-duplicate-related-names invariant: an entry is appended only when no
entry with that name is present. -/
theorem addRelationUpdate_nodup (sel target : Contact) (tid rt : String)
    (c : Contact) (hc : nodupNamesB c = true) :
    nodupNamesB (addRelationUpdate sel target tid rt c) = true := by
  simp only [nodupNamesB, decide_eq_true_eq] at hc ⊢
  unfold addRelationUpdate
  split_ifs with h1 h2 h3 h4
  · exact hc
  · have hnot : target.name ∉ c.relatedPeople.map RelatedPerson.name := by
      intro hmem
      rw [List.mem_map] at hmem
      obtain ⟨p, hp, hpname⟩ := hmem
      exact h2 (List.any_eq_true.mpr ⟨p, hp, by simp [hpname]⟩)
    simp [List.nodup_append, hc, hnot]
  · exact hc
  · have hnot : sel.name ∉ c.relatedPeople.map RelatedPerson.name := by
      intro hmem
      rw [List.mem_map] at hmem
      obtain ⟨p, hp, hpname⟩ := hmem
      exact h4 (List.any_eq_true.mpr ⟨p, hp, by simp [hpname]⟩)
    simp [List.nodup_append, hc, hnot]
  · exact hc

/-- handleAddRelation either no-ops or maps the per-contact update over the
store. -/
theorem handleAddRelation_cases (contacts : List Contact)
    (sid : Option String) (tid rt : String) :
    handleAddRelation contacts sid tid rt = contacts ∨
    ∃ sel target, handleAddRelation contacts sid tid rt =
      contacts.map (addRelationUpdate sel target tid rt) := by
  unfold handleAddRelation
  split
  · exact Or.inl rfl
  · split
    · exact Or.inl rfl
    · split
      · exact Or.inl rfl
      · exact Or.inr ⟨_, _, rfl⟩

/-- C4 (amended): a relation-add never introduces two relatedPeople entries
with the same name (a store whose entities satisfy the invariant still
satisfies it afterwards, the append being skipped when the name is already
present); the merged entity's relatedPeople, however, is exactly the
oracle response's relatedPeople field, with no engine-side dedup. -/
theorem relatedPeople_dedup_policy (contacts : List Contact)
    (sid : Option String) (tid rt : String) (a b : Contact)
    (rest : List Contact) (m r : JSContact)
    (h1 : contacts.all nodupNamesB = true)
    (h2 : mergeContactsSmartly (a :: b :: rest) (.response (some m)) = .ok r) :
    (handleAddRelation contacts sid tid rt).all nodupNamesB = true ∧
    r.relatedPeople = m.relatedPeople := by
  constructor
  · rcases handleAddRelation_cases contacts sid tid rt with h | ⟨sel, target, h⟩
    · rw [h]
      exact h1
    · rw [h, List.all_eq_true]
      intro c hc
      rw [List.mem_map] at hc
      obtain ⟨c0, hc0, rfl⟩ := hc
      rw [List.all_eq_true] at h1
      exact addRelationUpdate_nodup sel target tid rt c0 (h1 c0 hc0)
  · rw [mergeContactsSmartly_parsed] at h2
    injection h2 with h2
    rw [← h2]

/-- C4 amended-claim witness at a concrete store and merge input. -/
theorem relatedPeople_dedup_policy_witness :
    (handleAddRelation [cLi] (some "1") "2" "Friend").all nodupNamesB =
      true ∧
    ({ tags := some ["z"], id := some "a", notes := some "\n\n" } :
      JSContact).relatedPeople = mTagsZ.relatedPeople :=
  relatedPeople_dedup_policy [cLi] (some "1") "2" "Friend" cTagA cTagB []
    mTagsZ _ (by decide) rfl

-- --- C7: discovery dedup within one enrichment call ---

/-- Counting stubs with a given name produced by the discovery loop: one
stub exactly when the name occurs among the remaining references and is
not yet in the (growing) name set. -/
theorem discoverLoop_countP_name (e : String) (g : Nat → String)
    (n : String) (rels : List RelatedPerson) :
    ∀ (names : List String) (k : Nat),
      (discoverLoop e g rels names k).countP (fun c => c.name == n) =
        if n ∉ names ∧ n ∈ rels.map RelatedPerson.name then 1 else 0 := by
  induction rels with
  | nil => intro names k; simp [discoverLoop]
  | cons rel rest ih =>
      intro names k
      by_cases hmem : rel.name ∈ names
      · rw [show discoverLoop e g (rel :: rest) names k =
              discoverLoop e g rest names k from by
            simp [discoverLoop, hmem]]
        rw [ih names k]
        by_cases hn : n ∈ names
        · simp [hn]
        · have hne : n ≠ rel.name := fun h => hn (h ▸ hmem)
          simp [hn, hne]
      · rw [show discoverLoop e g (rel :: rest) names k =
              mkStub e g k rel ::
                discoverLoop e g rest (rel.name :: names) (k + 1) from by
            simp [discoverLoop, hmem]]
        rw [List.countP_cons, ih (rel.name :: names) (k + 1)]
        have hstub : (mkStub e g k rel).name = rel.name := rfl
        by_cases heq : rel.name = n
        · subst heq
          simp [hstub, hmem]
        · have hne : ¬(n = rel.name) := fun h => heq h.symm
          simp [hstub, heq, hne]

/-- C7: when the patched relatedPeople contains two or more entries with
the same name, matching neither the enriched contact's own name nor any
stored contact's name (case-sensitively), the discovery step creates
exactly one stub with that name, because the name set is seeded from the
store plus the enriched name and grows as stubs are created. -/
theorem handleEnrich_discovery_dedup (contacts : List Contact)
    (enriched : Contact) (g : Nat → String) (n : String)
    (h2 : 2 ≤ enriched.relatedPeople.countP (fun r => r.name == n))
    (hn1 : n ≠ enriched.name) (hn2 : n ∉ contacts.map Contact.name) :
    (handleEnrichDiscovery contacts enriched g).countP
      (fun c => c.name == n) = 1 := by
  have hpos : 0 < enriched.relatedPeople.countP (fun r => r.name == n) :=
    lt_of_lt_of_le (by norm_num) h2
  rw [List.countP_pos_iff] at hpos
  obtain ⟨r, hr, hrn⟩ := hpos
  have hmem : n ∈ enriched.relatedPeople.map RelatedPerson.name := by
    rw [List.mem_map]
    exact ⟨r, hr, by simpa using hrn⟩
  have hseed : n ∉ enriched.name :: contacts.map Contact.name := by
    simp only [List.mem_cons]
    rintro (h | h)
    · exact hn1 h
    · exact hn2 h
  rw [handleEnrichDiscovery, discoverLoop_countP_name]
  rw [if_pos ⟨hseed, hmem⟩]

/-- C7 witness: a patch naming the new person twice yields one stub. -/
theorem handleEnrich_discovery_dedup_witness :
    2 ≤ cDupRels.relatedPeople.countP (fun r => r.name == "新人") ∧
    (handleEnrichDiscovery [cGhosted] cDupRels autoId).countP
      (fun c => c.name == "新人") = 1 :=
  ⟨by decide,
   handleEnrich_discovery_dedup [cGhosted] cDupRels autoId "新人"
     (by decide) (by decide) (by decide)⟩

-- --- C8: inferred colleague edges are emitted exactly once per pair ---

/-- The character-list order is antisymmetric and total on distinct
lists. -/
theorem charListLt_antisymm_total (as : List Char) :
    ∀ bs, as ≠ bs →
      (charListLt as bs = true ∧ charListLt bs as = false) ∨
      (charListLt as bs = false ∧ charListLt bs as = true) := by
  induction as with
  | nil =>
      intro bs hne
      cases bs with
      | nil => exact absurd rfl hne
      | cons b bs => exact Or.inl ⟨rfl, rfl⟩
  | cons a as ih =>
      intro bs hne
      cases bs with
      | nil => exact Or.inr ⟨rfl, rfl⟩
      | cons b bs =>
          rcases lt_trichotomy a b with hab | hab | hab
          · refine Or.inl ⟨?_, ?_⟩
            · simp only [charListLt]
              rw [if_pos hab]
            · simp only [charListLt]
              rw [if_neg (lt_asymm hab), if_pos hab]
          · subst hab
            have hne2 : as ≠ bs := fun h => hne (by rw [h])
            rcases ih bs hne2 with ⟨h1, h2⟩ | ⟨h1, h2⟩
            · refine Or.inl ⟨?_, ?_⟩ <;>
                (simp only [charListLt]
                 rw [if_neg (lt_irrefl a), if_neg (lt_irrefl a)])
              · exact h1
              · exact h2
            · refine Or.inr ⟨?_, ?_⟩ <;>
                (simp only [charListLt]
                 rw [if_neg (lt_irrefl a), if_neg (lt_irrefl a)])
              · exact h1
              · exact h2
          · refine Or.inr ⟨?_, ?_⟩
            · simp only [charListLt]
              rw [if_neg (lt_asymm hab), if_pos hab]
            · simp only [charListLt]
              rw [if_pos hab]

/-- The modelled JavaScript string order is antisymmetric and total on
distinct strings. -/
theorem jsStrLt_antisymm_total (x y : String) (hne : x ≠ y) :
    (jsStrLt x y = true ∧ jsStrLt y x = false) ∨
    (jsStrLt x y = false ∧ jsStrLt y x = true) :=
  charListLt_antisymm_total x.data y.data (fun h => hne (String.ext h))

/-- For distinct strings, exactly one direction of the order holds. -/
theorem jsStrLt_if_sum (x y : String) (hne : x ≠ y) :
    ((if jsStrLt x y = true then 1 else 0) : Nat) +
      (if jsStrLt y x = true then 1 else 0) = 1 := by
  rcases jsStrLt_antisymm_total x y hne with ⟨h1, h2⟩ | ⟨h1, h2⟩ <;>
    simp [h1, h2]

/-- A mapped sum vanishes when the function vanishes on the list. -/
theorem sum_map_zero_support {α : Type} (g : α → Nat) (l : List α)
    (h : ∀ s ∈ l, g s = 0) : (l.map g).sum = 0 := by
  induction l with
  | nil => rfl
  | cons x xs ih =>
      simp only [List.map_cons, List.sum_cons]
      rw [h x (List.mem_cons_self x xs),
          ih (fun s hs => h s (List.mem_cons_of_mem x hs))]

/-- A mapped sum over a list containing an element once, with the function
vanishing elsewhere, is the value at that element. -/
theorem sum_map_one_support {α : Type} [DecidableEq α] (g : α → Nat)
    (l : List α) (B : α) (hB : l.count B = 1)
    (h : ∀ s ∈ l, s ≠ B → g s = 0) : (l.map g).sum = g B := by
  induction l with
  | nil => simp [List.count_nil] at hB
  | cons x xs ih =>
      by_cases hx : x = B
      · subst hx
        rw [List.count_cons] at hB
        simp only [beq_self_eq_true, if_true] at hB
        have hzero : List.count x xs = 0 := by omega
        have hnot : x ∉ xs := List.count_eq_zero.mp hzero
        simp only [List.map_cons, List.sum_cons]
        rw [sum_map_zero_support g xs
            (fun s hs => h s (List.mem_cons_of_mem x hs)
              (fun he => hnot (he ▸ hs)))]
        omega
      · rw [List.count_cons] at hB
        have hxB : ¬((x == B) = true) := by simp [hx]
        rw [if_neg hxB, Nat.add_zero] at hB
        simp only [List.map_cons, List.sum_cons]
        rw [h x (List.mem_cons_self x xs) hx,
            ih hB (fun s hs hsB => h s (List.mem_cons_of_mem x hs) hsB)]
        omega

/-- A mapped sum over a list containing two distinct elements once each,
with the function vanishing elsewhere, is the sum of the two values. -/
theorem sum_map_two_support {α : Type} [DecidableEq α] (g : α → Nat)
    (l : List α) (A B : α) (hAB : A ≠ B) (hA : l.count A = 1)
    (hB : l.count B = 1) (h : ∀ s ∈ l, s ≠ A → s ≠ B → g s = 0) :
    (l.map g).sum = g A + g B := by
  induction l with
  | nil => simp [List.count_nil] at hA
  | cons x xs ih =>
      simp only [List.map_cons, List.sum_cons]
      rw [List.count_cons] at hA hB
      by_cases hxA : x = A
      · subst hxA
        simp only [beq_self_eq_true, if_true] at hA
        have hzero : List.count x xs = 0 := by omega
        have hnot : x ∉ xs := List.count_eq_zero.mp hzero
        have hxB : ¬((x == B) = true) := by simp [hAB]
        rw [if_neg hxB, Nat.add_zero] at hB
        rw [sum_map_one_support g xs B hB
            (fun s hs hsB => h s (List.mem_cons_of_mem x hs)
              (fun he => hnot (he ▸ hs)) hsB)]
      · by_cases hxB : x = B
        · subst hxB
          simp only [beq_self_eq_true, if_true] at hB
          have hzero : List.count x xs = 0 := by omega
          have hnot : x ∉ xs := List.count_eq_zero.mp hzero
          have hxA2 : ¬((x == A) = true) := by simp [hxA]
          rw [if_neg hxA2, Nat.add_zero] at hA
          rw [sum_map_one_support g xs A hA
              (fun s hs hsA => h s (List.mem_cons_of_mem x hs) hsA
                (fun he => hnot (he ▸ hs)))]
          omega
        · have hxA2 : ¬((x == A) = true) := by simp [hxA]
          have hxB2 : ¬((x == B) = true) := by simp [hxB]
          rw [if_neg hxA2, Nat.add_zero] at hA
          rw [if_neg hxB2, Nat.add_zero] at hB
          rw [h x (List.mem_cons_self x xs) hxA hxB,
              ih hA hB (fun s hs hsA hsB =>
                h s (List.mem_cons_of_mem x hs) hsA hsB)]
          omega

/-- Every explicit edge carries weight 2. -/
theorem explicitEdgesFrom_value (all : List Contact) (s : Contact) (e : Edge)
    (he : e ∈ explicitEdgesFrom all s) : e.value = 2 := by
  rw [explicitEdgesFrom, List.mem_filterMap] at he
  obtain ⟨rel, _, heq⟩ := he
  rw [Option.bind_eq_some] at heq
  obtain ⟨tid, _, hif⟩ := heq
  by_cases htid : tid = ""
  · rw [if_pos htid] at hif
    cases hif
  · rw [if_neg htid] at hif
    injection hif with hif
    rw [← hif]

/-- Explicit edges never count as inferred edges (weight mismatch). -/
theorem countP_explicit_inferred_zero (all : List Contact) (s : Contact)
    (x y : String) :
    (explicitEdgesFrom all s).countP (isInferredBetween x y) = 0 := by
  rw [List.countP_eq_zero]
  intro e he
  have h2 : e.value = 2 := explicitEdgesFrom_value all s e he
  simp [isInferredBetween, h2]

/-- A contact whose id is neither endpoint contributes no inferred edge
between the pair. -/
theorem colleague_countP_other (contacts : List Contact) (s : Contact)
    (x y : String) (hsx : s.id ≠ x) (hsy : s.id ≠ y) :
    (colleagueEdgesFrom contacts s).countP (isInferredBetween x y) = 0 := by
  rw [List.countP_eq_zero]
  intro e he
  by_cases hc : s.company = ""
  · rw [colleagueEdgesFrom, if_pos hc] at he
    exact absurd he (List.not_mem_nil e)
  · rw [colleagueEdgesFrom, if_neg hc, List.mem_map] at he
    obtain ⟨t, _, rfl⟩ := he
    simp [isInferredBetween, hsx, hsy]

/-- The inferred-pair predicate is symmetric in the two ids. -/
theorem isInferredBetween_symm (x y : String) :
    isInferredBetween x y = isInferredBetween y x := by
  funext e
  simp only [isInferredBetween]
  rw [Bool.or_comm]

/-- The colleague edges from X contain the pair (X, Y) exactly when the id
order allows it, given Y is the unique contact with its id and the
companies agree and are non-empty. -/
theorem colleague_countP_source (contacts : List Contact) (X Y : Contact)
    (hnodup : (contacts.map Contact.id).Nodup) (hY : Y ∈ contacts)
    (hne : X.id ≠ Y.id) (hco : X.company = Y.company)
    (hcne : X.company ≠ "") :
    (colleagueEdgesFrom contacts X).countP (isInferredBetween X.id Y.id) =
      if jsStrLt X.id Y.id = true then 1 else 0 := by
  rw [colleagueEdgesFrom, if_neg hcne, List.countP_map, List.countP_filter]
  have hcongr : ∀ t ∈ contacts,
      ((isInferredBetween X.id Y.id ∘ fun t =>
          Edge.mk X.id t.id 1 "Colleague") t &&
        (decide (X.id ≠ t.id) && decide (X.company = t.company) &&
          jsStrLt X.id t.id)) = true ↔
      ((t == Y) && jsStrLt X.id Y.id) = true := by
    intro t ht
    by_cases hty : t = Y
    · subst hty
      simp [isInferredBetween, Function.comp, hne, hco]
    · have htid : t.id ≠ Y.id :=
        fun h => hty (List.inj_on_of_nodup_map hnodup ht hY h)
      have htY : ¬((t == Y) = true) := by simp [hty]
      simp [isInferredBetween, Function.comp, htid, hne, htY]
  rw [List.countP_congr hcongr]
  by_cases hlt : jsStrLt X.id Y.id = true
  · rw [if_pos hlt]
    have hdrop : ∀ t ∈ contacts,
        ((t == Y) && jsStrLt X.id Y.id) = true ↔ (t == Y) = true := by
      intro t ht
      rw [hlt]
      simp
    rw [List.countP_congr hdrop, ← List.count_eq_countP]
    exact List.count_eq_one_of_mem (List.Nodup.of_map Contact.id hnodup) hY
  · have hlt2 : jsStrLt X.id Y.id = false := by
      cases h : jsStrLt X.id Y.id
      · rfl
      · exact absurd h hlt
    rw [if_neg hlt, List.countP_eq_zero]
    intro t ht
    simp [hlt2]

/-- Every inferred edge the graph construction emits respects the id
order: its source id is strictly below its target id. -/
theorem deriveEdges_inferred_ordered (contacts : List Contact) :
    (deriveEdges contacts).countP
      (fun e => e.value == 1 && !(jsStrLt e.source e.target)) = 0 := by
  rw [List.countP_eq_zero]
  intro e he
  rw [deriveEdges, List.mem_flatMap] at he
  obtain ⟨s, _, he⟩ := he
  rw [List.mem_append] at he
  rcases he with he | he
  · have h2 : e.value = 2 := explicitEdgesFrom_value contacts s e he
    simp [h2]
  · by_cases hc : s.company = ""
    · rw [colleagueEdgesFrom, if_pos hc] at he
      exact absurd he (List.not_mem_nil e)
    · rw [colleagueEdgesFrom, if_neg hc, List.mem_map] at he
      obtain ⟨t, htf, rfl⟩ := he
      rw [List.mem_filter] at htf
      have hq := htf.2
      simp only [Bool.and_eq_true, decide_eq_true_eq] at hq
      simp [hq.2]

/-- C8: in a store with pairwise-distinct ids, for two stored contacts with
distinct ids and the same non-empty organization, the link construction
emits exactly one inferred weight-1 Colleague edge between the pair (in
either direction), and every inferred edge it ever emits has its source id
strictly below its target id (so both (A,B) and (B,A) are never
emitted). -/
theorem deriveEdges_colleague_once (contacts : List Contact) (A B : Contact)
    (hnodup : (contacts.map Contact.id).Nodup) (hA : A ∈ contacts)
    (hB : B ∈ contacts) (hne : A.id ≠ B.id) (hco : A.company = B.company)
    (hcne : A.company ≠ "") :
    (deriveEdges contacts).countP (isInferredBetween A.id B.id) = 1 ∧
    (deriveEdges contacts).countP
      (fun e => e.value == 1 && !(jsStrLt e.source e.target)) = 0 := by
  refine ⟨?_, deriveEdges_inferred_ordered contacts⟩
  have hndl : contacts.Nodup := List.Nodup.of_map Contact.id hnodup
  have hAB : A ≠ B := fun h => hne (by rw [h])
  rw [deriveEdges, List.countP_flatMap]
  have hoff : ∀ s ∈ contacts, s ≠ A → s ≠ B →
      (List.countP (isInferredBetween A.id B.id) ∘ fun s =>
        explicitEdgesFrom contacts s ++ colleagueEdgesFrom contacts s) s =
        0 := by
    intro s hs hsA hsB
    have hsidA : s.id ≠ A.id :=
      fun h => hsA (List.inj_on_of_nodup_map hnodup hs hA h)
    have hsidB : s.id ≠ B.id :=
      fun h => hsB (List.inj_on_of_nodup_map hnodup hs hB h)
    simp only [Function.comp_apply, List.countP_append]
    rw [countP_explicit_inferred_zero,
        colleague_countP_other contacts s A.id B.id hsidA hsidB]
  rw [sum_map_two_support _ contacts A B hAB
      (List.count_eq_one_of_mem hndl hA)
      (List.count_eq_one_of_mem hndl hB) hoff]
  simp only [Function.comp_apply, List.countP_append]
  rw [countP_explicit_inferred_zero, countP_explicit_inferred_zero]
  rw [colleague_countP_source contacts A B hnodup hB hne hco hcne]
  have hsymm : (colleagueEdgesFrom contacts B).countP
      (isInferredBetween A.id B.id) =
      (colleagueEdgesFrom contacts B).countP (isInferredBetween B.id A.id) := by
    rw [isInferredBetween_symm]
  rw [hsymm, colleague_countP_source contacts B A hnodup hA
      (fun h => hne h.symm) hco.symm (by rw [← hco]; exact hcne)]
  simpa using jsStrLt_if_sum A.id B.id hne

/-- C8 witness at the spec scenario: Li and Wang at Acme produce exactly
one colleague edge and no wrongly ordered inferred edge. -/
theorem deriveEdges_colleague_once_witness :
    (deriveEdges [cAcmeLi, cAcmeWang]).countP (isInferredBetween "1" "2") =
      1 ∧
    (deriveEdges [cAcmeLi, cAcmeWang]).countP
      (fun e => e.value == 1 && !(jsStrLt e.source e.target)) = 0 :=
  deriveEdges_colleague_once [cAcmeLi, cAcmeWang] cAcmeLi cAcmeWang
    (by decide) (by decide) (by decide) (by decide) (by decide) (by decide)

-- --- C9: deduplication of gathered search sources ---

/-- An entry of the map after insertion whose key is the inserted key holds
the inserted value. -/
theorem jsMapInsert_mem_key (m : List (Option String × SearchResult))
    (k : Option String) (v : SearchResult)
    (p : Option String × SearchResult) (hp : p ∈ jsMapInsert m k v)
    (hk : p.1 = k) : p = (k, v) := by
  rw [jsMapInsert] at hp
  by_cases hany : m.any (fun p => decide (p.1 = k)) = true
  · rw [if_pos hany, List.mem_map] at hp
    obtain ⟨q, hq, heq⟩ := hp
    by_cases hqk : q.1 = k
    · rw [if_pos hqk] at heq
      exact heq.symm
    · rw [if_neg hqk] at heq
      rw [← heq] at hk
      exact absurd hk hqk
  · rw [if_neg hany, List.mem_append] at hp
    rcases hp with hp | hp
    · exfalso
      apply hany
      rw [List.any_eq_true]
      exact ⟨p, hp, by simp [hk]⟩
    · simpa using hp

/-- An entry of the map after insertion with a different key was already
present. -/
theorem jsMapInsert_mem_ne (m : List (Option String × SearchResult))
    (k : Option String) (v : SearchResult)
    (p : Option String × SearchResult) (hp : p ∈ jsMapInsert m k v)
    (hk : p.1 ≠ k) : p ∈ m := by
  rw [jsMapInsert] at hp
  by_cases hany : m.any (fun p => decide (p.1 = k)) = true
  · rw [if_pos hany, List.mem_map] at hp
    obtain ⟨q, hq, heq⟩ := hp
    by_cases hqk : q.1 = k
    · rw [if_pos hqk] at heq
      rw [← heq] at hk
      simp at hk
    · rw [if_neg hqk] at heq
      rw [← heq]
      exact hq
  · rw [if_neg hany, List.mem_append] at hp
    rcases hp with hp | hp
    · exact hp
    · simp only [List.mem_singleton] at hp
      rw [hp] at hk
      simp at hk

/-- Key sequence after a map insertion: unchanged for a present key,
appended for a new one. -/
theorem jsMapInsert_keys (m : List (Option String × SearchResult))
    (k : Option String) (v : SearchResult) :
    (jsMapInsert m k v).map Prod.fst =
      if k ∈ m.map Prod.fst then m.map Prod.fst
      else m.map Prod.fst ++ [k] := by
  rw [jsMapInsert]
  by_cases hany : m.any (fun p => decide (p.1 = k)) = true
  · have hmem : k ∈ m.map Prod.fst := by
      rw [List.any_eq_true] at hany
      obtain ⟨q, hq, hqk⟩ := hany
      simp only [decide_eq_true_eq] at hqk
      rw [List.mem_map]
      exact ⟨q, hq, hqk⟩
    rw [if_pos hany, if_pos hmem, List.map_map]
    apply List.map_congr_left
    intro q hq
    by_cases hqk : q.1 = k
    · simp [Function.comp, hqk]
    · simp [Function.comp, hqk]
  · have hmem : k ∉ m.map Prod.fst := by
      intro hmem
      apply hany
      rw [List.mem_map] at hmem
      obtain ⟨q, hq, hqk⟩ := hmem
      rw [List.any_eq_true]
      exact ⟨q, hq, by simp [hqk]⟩
    rw [if_neg hany, if_neg hmem, List.map_append]
    rfl

/-- The Map's key sequence is the first-occurrence deduplication of the url
sequence. -/
theorem jsMapFold_keys (l : List SearchResult) :
    ∀ m : List (Option String × SearchResult),
      ((l.foldl (fun m item => jsMapInsert m item.url item) m).map
          Prod.fst) =
        (l.map (fun s => s.url)).foldl
          (fun acc u => if u ∈ acc then acc else acc ++ [u])
          (m.map Prod.fst) := by
  induction l with
  | nil => intro m; rfl
  | cons x xs ih =>
      intro m
      simp only [List.foldl_cons, List.map_cons]
      rw [ih (jsMapInsert m x.url x), jsMapInsert_keys]

/-- Every map entry built from the sources keys the value by its own
url. -/
theorem jsMapFold_snd_url (l : List SearchResult) :
    ∀ m : List (Option String × SearchResult),
      (∀ p ∈ m, p.2.url = p.1) →
      ∀ p ∈ l.foldl (fun m item => jsMapInsert m item.url item) m,
        p.2.url = p.1 := by
  induction l with
  | nil => intro m hm p hp; exact hm p hp
  | cons x xs ih =>
      intro m hm p hp
      simp only [List.foldl_cons] at hp
      refine ih (jsMapInsert m x.url x) ?_ p hp
      intro q hq
      by_cases hqk : q.1 = x.url
      · rw [jsMapInsert_mem_key m x.url x q hq hqk]
      · exact hm q (jsMapInsert_mem_ne m x.url x q hq hqk)

/-- Each entry of the built map holds the last source with its url (or was
already in the initial map and its url never occurs). -/
theorem jsMapFold_lastOcc (l : List SearchResult) :
    ∀ (m : List (Option String × SearchResult))
      (p : Option String × SearchResult),
      p ∈ l.foldl (fun m item => jsMapInsert m item.url item) m →
      (l.reverse.find? (fun i => decide (i.url = p.1)) = some p.2) ∨
      ((∀ i ∈ l, i.url ≠ p.1) ∧ p ∈ m) := by
  induction l with
  | nil =>
      intro m p hp
      exact Or.inr ⟨fun i hi => absurd hi (List.not_mem_nil i), hp⟩
  | cons x xs ih =>
      intro m p hp
      simp only [List.foldl_cons] at hp
      rcases ih (jsMapInsert m x.url x) p hp with hfind | ⟨hnone, hpm⟩
      · left
        rw [List.reverse_cons, List.find?_append, hfind]
        rfl
      · by_cases hxk : x.url = p.1
        · left
          have hp2 : p = (x.url, x) :=
            jsMapInsert_mem_key m x.url x p hpm hxk.symm
          rw [List.reverse_cons, List.find?_append]
          have hfnone : xs.reverse.find? (fun i => decide (i.url = p.1)) =
              none := by
            rw [List.find?_eq_none]
            intro i hi
            simp only [decide_eq_true_eq]
            exact hnone i (List.mem_reverse.mp hi)
          rw [hfnone, Option.none_or, hp2]
          simp
        · right
          refine ⟨?_, jsMapInsert_mem_ne m x.url x p hpm
            (fun h => hxk h.symm)⟩
          intro i hi
          rcases List.mem_cons.mp hi with hi | hi
          · rw [hi]
            exact hxk
          · exact hnone i hi

/-- C9 (amended): the gathered source list is deduplicated by URL, the
deduplicated entries appearing in first-occurrence order of their URLs,
but each retained entry is the last gathered source with that URL, not the
first. -/
theorem searchSources_dedup_lastWins (chunks : List GroundingChunk)
    (hostname : String → String) :
    (searchPersonInfoSources chunks hostname).map (fun s => s.url) =
      firstOccDedup ((rawSources chunks hostname).map (fun s => s.url)) ∧
    ∀ s ∈ searchPersonInfoSources chunks hostname,
      (rawSources chunks hostname).reverse.find?
        (fun i => decide (i.url = s.url)) = some s := by
  have hsnd : ∀ p ∈ (rawSources chunks hostname).foldl
      (fun m item => jsMapInsert m item.url item) [], p.2.url = p.1 :=
    jsMapFold_snd_url _ [] (fun q hq => absurd hq (List.not_mem_nil q))
  constructor
  · rw [searchPersonInfoSources, dedupeByUrl, List.map_map]
    have hcongr : ∀ p ∈ (rawSources chunks hostname).foldl
        (fun m item => jsMapInsert m item.url item) [],
        ((fun s => s.url) ∘ Prod.snd) p = Prod.fst p :=
      fun p hp => hsnd p hp
    rw [List.map_congr_left hcongr, jsMapFold_keys]
    rfl
  · intro s hs
    rw [searchPersonInfoSources, dedupeByUrl, List.mem_map] at hs
    obtain ⟨p, hp, hps⟩ := hs
    have hsu : s.url = p.1 := by
      rw [← hps]
      exact hsnd p hp
    rcases jsMapFold_lastOcc (rawSources chunks hostname) [] p hp with
      hfind | ⟨_, hmem⟩
    · rw [hps] at hfind
      simp only [hsu]
      exact hfind
    · exact absurd hmem (List.not_mem_nil p)

/-- C9 counterexample: two grounding chunks with the same uri but
different titles are deduplicated to the second chunk's entry, not the
first occurrence the claim requires. -/
theorem searchSources_not_first_occurrence_cex :
    searchPersonInfoSources [chunkT1, chunkT2] hostFixed ≠
      specDedupKeepFirst (rawSources [chunkT1, chunkT2] hostFixed) := by
  decide

-- --- C10: frame conditions of handleAddRelation ---

/-- find? only depends on the predicate's values on the list. -/
theorem find?_congr_mem {α : Type} (p q : α → Bool) (l : List α)
    (h : ∀ a ∈ l, p a = q a) : l.find? p = l.find? q := by
  induction l with
  | nil => rfl
  | cons x xs ih =>
      simp only [List.find?]
      rw [h x (List.mem_cons_self x xs),
          ih (fun a ha => h a (List.mem_cons_of_mem x ha))]

/-- Mapping a function that fixes every member is the identity. -/
theorem map_eq_self_of_eq {α : Type} (f : α → α) (l : List α)
    (h : ∀ a ∈ l, f a = a) : l.map f = l :=
  (List.map_congr_left h).trans (List.map_id l)

/-- The per-contact relation update never changes the id. -/
theorem addRelationUpdate_id (sel target : Contact) (tid rt : String)
    (c : Contact) : (addRelationUpdate sel target tid rt c).id = c.id := by
  unfold addRelationUpdate
  split_ifs <;> rfl

/-- A contact on neither side of the relation is returned unchanged. -/
theorem addRelationUpdate_other (sel target : Contact) (tid rt : String)
    (c : Contact) (h1 : c.id ≠ sel.id) (h2 : c.id ≠ tid) :
    addRelationUpdate sel target tid rt c = c := by
  unfold addRelationUpdate
  rw [if_neg h1, if_neg h2]

/-- C10: when the selected id and target id resolve to two distinct stored
contacts, the target id is non-empty and the trimmed relationship label is
non-empty, the relation-add keeps the store's length, leaves every contact
on neither side unchanged, and gives each of the two sides an appended
relatedPeople entry naming the other with the given label unless an entry
with that name is already present; no other field of the two sides
changes. -/
theorem handleAddRelation_frame (contacts : List Contact)
    (sid tid rt : String) (sel target : Contact)
    (hsel : contacts.find? (fun c => c.id == sid) = some sel)
    (htgt : contacts.find? (fun c => c.id == tid) = some target)
    (htid : tid ≠ "") (hrt : jsTrim rt ≠ "") (hne : sel.id ≠ tid) :
    (handleAddRelation contacts (some sid) tid rt).length =
      contacts.length ∧
    (handleAddRelation contacts (some sid) tid rt).filter
        (fun c => !(c.id == sel.id) && !(c.id == tid)) =
      contacts.filter (fun c => !(c.id == sel.id) && !(c.id == tid)) ∧
    (handleAddRelation contacts (some sid) tid rt).find?
        (fun c => c.id == sel.id) =
      some (if sel.relatedPeople.any (fun p => p.name == target.name)
            then sel
            else { sel with relatedPeople :=
                     sel.relatedPeople ++ [⟨target.name, rt⟩] }) ∧
    (handleAddRelation contacts (some sid) tid rt).find?
        (fun c => c.id == tid) =
      some (if target.relatedPeople.any (fun p => p.name == sel.name)
            then target
            else { target with relatedPeople :=
                     target.relatedPeople ++ [⟨sel.name, rt⟩] }) := by
  have hselid : sel.id = sid := by
    have h := List.find?_some hsel
    simpa using h
  have htgtid : target.id = tid := by
    have h := List.find?_some htgt
    simpa using h
  have hg : ¬(tid = "" ∨ jsTrim rt = "") := by
    rintro (h | h)
    · exact htid h
    · exact hrt h
  have hmain : handleAddRelation contacts (some sid) tid rt =
      contacts.map (addRelationUpdate sel target tid rt) := by
    unfold handleAddRelation
    rw [show (some sid).bind (fun i => contacts.find? (fun c => c.id == i)) =
          contacts.find? (fun c => c.id == sid) from rfl]
    rw [hsel]
    dsimp only
    rw [if_neg hg, htgt]
  refine ⟨?_, ?_, ?_, ?_⟩
  · rw [hmain, List.length_map]
  · rw [hmain, List.filter_map]
    have hqf : ∀ c ∈ contacts,
        ((fun c => !(c.id == sel.id) && !(c.id == tid)) ∘
          addRelationUpdate sel target tid rt) c =
        (!(c.id == sel.id) && !(c.id == tid)) := by
      intro c hc
      simp only [Function.comp_apply, addRelationUpdate_id]
    rw [List.filter_congr hqf]
    apply map_eq_self_of_eq
    intro c hc
    rw [List.mem_filter] at hc
    have hq := hc.2
    simp only [Bool.and_eq_true, Bool.not_eq_true',
      beq_eq_false_iff_ne] at hq
    exact addRelationUpdate_other sel target tid rt c hq.1 hq.2
  · rw [hmain, List.find?_map]
    rw [find?_congr_mem _ (fun c => c.id == sel.id) contacts
        (fun c hc => by simp only [Function.comp_apply, addRelationUpdate_id])]
    rw [show (fun (c : Contact) => c.id == sel.id) =
          (fun c => c.id == sid) from by funext c; rw [hselid]]
    rw [hsel]
    have hupd : addRelationUpdate sel target tid rt sel =
        (if sel.relatedPeople.any (fun p => p.name == target.name)
         then sel
         else { sel with relatedPeople :=
                  sel.relatedPeople ++ [⟨target.name, rt⟩] }) := by
      unfold addRelationUpdate
      rw [if_pos rfl]
    rw [Option.map_some', hupd]
  · rw [hmain, List.find?_map]
    rw [find?_congr_mem _ (fun c => c.id == tid) contacts
        (fun c hc => by simp only [Function.comp_apply, addRelationUpdate_id])]
    rw [htgt]
    have hupd : addRelationUpdate sel target tid rt target =
        (if target.relatedPeople.any (fun p => p.name == sel.name)
         then target
         else { target with relatedPeople :=
                  target.relatedPeople ++ [⟨sel.name, rt⟩] }) := by
      unfold addRelationUpdate
      have hne2 : ¬(target.id = sel.id) := by
        intro h
        apply hne
        rw [← h]
        exact htgtid
      rw [if_neg hne2, if_pos htgtid]
    rw [Option.map_some', hupd]

/-- C10 witness: linking the first and third initial contacts as Friend
updates exactly those two entries and nothing else. -/
theorem handleAddRelation_frame_witness :
    (handleAddRelation [cLi, cWang, cZhang] (some "1") "3" "Friend").length =
      ([cLi, cWang, cZhang] : List Contact).length ∧
    (handleAddRelation [cLi, cWang, cZhang] (some "1") "3" "Friend").filter
        (fun c => !(c.id == cLi.id) && !(c.id == "3")) =
      ([cLi, cWang, cZhang] : List Contact).filter
        (fun c => !(c.id == cLi.id) && !(c.id == "3")) ∧
    (handleAddRelation [cLi, cWang, cZhang] (some "1") "3" "Friend").find?
        (fun c => c.id == cLi.id) =
      some (if cLi.relatedPeople.any (fun p => p.name == cZhang.name)
            then cLi
            else { cLi with relatedPeople :=
                     cLi.relatedPeople ++ [⟨cZhang.name, "Friend"⟩] }) ∧
    (handleAddRelation [cLi, cWang, cZhang] (some "1") "3" "Friend").find?
        (fun c => c.id == "3") =
      some (if cZhang.relatedPeople.any (fun p => p.name == cLi.name)
            then cZhang
            else { cZhang with relatedPeople :=
                     cZhang.relatedPeople ++ [⟨cLi.name, "Friend"⟩] }) :=
  handleAddRelation_frame [cLi, cWang, cZhang] "1" "3" "Friend" cLi cZhang
    rfl rfl (by decide) (by decide) (by decide)
